import Mathlib

/-!
Verification of `robust_csv_parser.py` (class `RobustCSVParser`).

The program is shallowly embedded over `List Char` documents.  Pure text
manipulation (NUL stripping, header detection via `re.finditer`, block
slicing) is translated directly from the source.  The calls into pandas
(`read_csv`, `dropna`, `filter`, `concat`, `to_datetime`, `tz_localize`,
`tz_convert`, `astype`) are modelled at the call sites with the options the
source passes (`header=0`, the first column as index, `on_bad_lines="warn"`,
`skip_blank_lines` default, `dropna(axis=1, how="all")`, column filtering by
regex search, outer-join concatenation, `errors="coerce"` date parsing,
fixed-offset timezones).  Cells are kept as raw strings; timestamps are
modelled as integer minute values; timezones as fixed UTC offsets in minutes
of shift per hour (offsets are hours, instants are minutes).  Fallible
library calls become `Option`; every log call becomes a `LogLevel` entry so
diagnostics can be counted.
-/

set_option maxHeartbeats 1000000

namespace RobustCsv

/-! ### Basic text utilities -/

/-- The NUL character removed by `data.replace("\0", "")`. -/
def nulChar : Char := Char.ofNat 0

/-- Model of `str.replace("\0", "")` — remove every NUL from the text. -/
def stripNul (s : List Char) : List Char := s.filter (fun c => c != nulChar)

/-- Python `str.split(sep)` for a one-character separator: always returns at
least one (possibly empty) field. -/
def splitOnChar (sep : Char) : List Char → List (List Char)
  | [] => [[]]
  | c :: rest =>
    let r := splitOnChar sep rest
    if c = sep then [] :: r
    else
      match r with
      | f :: t => (c :: f) :: t
      | [] => [[c]]

/-- Model of `fp.readline()`: the first line of the document, including its trailing
newline when present. -/
def firstLineRead (doc : List Char) : List Char :=
  match doc with
  | [] => []
  | c :: rest => if c = '\n' then [c] else c :: firstLineRead rest

/-- Model of `fp.readline().split(self.sep)[0]` — the auto-detected header marker:
first separator-delimited field of the raw first line (taken before NUL
stripping). -/
def firstField (sep : Char) (doc : List Char) : List Char :=
  (splitOnChar sep (firstLineRead doc)).headD []

/-- Python slice `data[a:b]`. -/
def listSlice (data : List Char) (a b : Nat) : List Char := (data.take b).drop a

/-- Distance to the first newline of a list (its length when none). -/
def findNl : List Char → Nat
  | [] => 0
  | c :: rest => if c = '\n' then 0 else findNl rest + 1

/-- Position of the first newline at or after `j` (document length when
none): where `.*$` under `re.MULTILINE` stops. -/
def lineEnd (data : List Char) (j : Nat) : Nat := j + findNl (data.drop j)

/-! ### Header locator

Model of `re.finditer` with the compiled pattern
`['\"]?(<escaped marker>).*$` (flags `re.MULTILINE`), for a literal marker
(`header_regex is None`; `re.escape` makes the marker match itself
literally, so it matches as a plain character sequence). -/

/-- The optional leading quotation mark accepted by `['\"]?`. -/
def isQuoteChar (c : Char) : Bool := c = Char.ofNat 39 || c = Char.ofNat 34

/-- A single match attempt of `['\"]?(<marker>).*$` at position `i`:
`none` when the pattern does not match there, otherwise the match end
(the `re.MULTILINE` line end that `$` anchors to).  The regex engine
greedily tries to consume a quote first, then backtracks. -/
def matchEndAt (marker data : List Char) (i : Nat) : Option Nat :=
  match data.drop i with
  | [] => if marker = [] then some (lineEnd data i) else none
  | c :: rest =>
    if isQuoteChar c && marker.isPrefixOf rest then
      some (lineEnd data (i + 1 + marker.length))
    else if marker.isPrefixOf (c :: rest) then
      some (lineEnd data (i + marker.length))
    else none

/-- Leftmost match attempt from position `pos` (fuelled scan): the first
position at or after `pos` where the pattern matches, with its match end. -/
def findFromAux (marker data : List Char) : Nat → Nat → Option (Nat × Nat)
  | 0, _ => none
  | fuel + 1, pos =>
    if pos > data.length then none
    else
      match matchEndAt marker data pos with
      | some e => some (pos, e)
      | none => findFromAux marker data fuel (pos + 1)

/-- The `re.finditer` loop from position `pos`: emit the leftmost match start,
resume scanning at the match end (bumping by one on a zero-width match). -/
def findAllAux (marker data : List Char) : Nat → Nat → List Nat
  | 0, _ => []
  | fuel + 1, pos =>
    match findFromAux marker data (data.length + 1) pos with
    | none => []
    | some (i, e) => i :: findAllAux marker data fuel (if i < e then e else i + 1)

/-- All header match start offsets of the document, in scan order —
the offsets produced by `re.finditer(regex, data)`. -/
def findAllMatches (marker data : List Char) : List Nat :=
  findAllAux marker data (data.length + 2) 0

/-! ### Block segmenter

The loop `for start in [m.start() for m in headerrow_finder] + [None]:`
slicing `data[start_prev:start]`. -/

/-- Text spans cut at the given match offsets: `data[o_i:o_(i+1))` and a
final `data[o_last:]`. -/
def segments (data : List Char) : List Nat → List (List Char)
  | [] => []
  | [o] => [data.drop o]
  | o :: o2 :: rest => listSlice data o o2 :: segments data (o2 :: rest)

/-- The block texts the parser feeds to `_parse_frame`: document segmented
at all header matches. -/
def blockTexts (marker data : List Char) : List (List Char) :=
  segments data (findAllMatches marker data)

/-! ### Tables and diagnostics -/

/-- One logging call, by level (message text is not modelled). -/
inductive LogLevel where
  | info
  | warning
  | error
deriving DecidableEq, Repr

/-- A row label: raw string from the file, or a parsed timestamp
(`none` is the `NaT` null sentinel from `errors="coerce"`). -/
inductive Label where
  | raw : List Char → Label
  | time : Option Int → Label
deriving DecidableEq, Repr

/-- Result of the `pd.read_csv(...)` call as the source configures it:
first line as header (`header=0`), first field of each row as the index
label, remaining fields as cells (empty field = null). -/
structure RawTable where
  indexName : List Char
  columns : List (List Char)
  rows : List (List Char × List (Option (List Char)))
deriving DecidableEq, Repr

/-- A parsed block (`ParsedFrame`): possibly time-indexed, with a display
timezone offset (hours) once date parsing has run. -/
structure Frame where
  indexName : List Char
  tzOffset : Option Int
  columns : List (List Char)
  rows : List (Label × List (Option (List Char)))
deriving DecidableEq, Repr

/-- A table read without date parsing keeps its raw string labels. -/
def rawToFrame (t : RawTable) : Frame :=
  ⟨t.indexName, none, t.columns, t.rows.map (fun r => (Label.raw r.1, r.2))⟩

/-- An empty CSV field becomes a null cell (pandas `NaN`). -/
def toCell (s : List Char) : Option (List Char) :=
  if s = [] then none else some s

/-- Pad a short row with nulls up to the column count (pandas C engine
null-fills rows with fewer fields than the header). -/
def padTo (n : Nat) (cs : List (Option (List Char))) : List (Option (List Char)) :=
  cs.take n ++ List.replicate (n - cs.length) none

/-- Model of `pd.read_csv(StringIO(data), sep=sep, header=0, engine="c",
on_bad_lines="warn")` with the first column as the index: blank lines are
skipped, the first remaining line names the columns, a row with more fields
than the header is skipped with a warning, and a fully empty input raises
`EmptyDataError` (caught by the source, which logs an error and returns
`None`). -/
def readCsv (sep : Char) (text : List Char) : Option RawTable × List LogLevel :=
  match (splitOnChar '\n' text).filter (fun l => l != []) with
  | [] => (none, [LogLevel.error])
  | header :: body =>
    let fields := splitOnChar sep header
    let cols := fields.tail
    let acc := body.foldl
      (fun acc line =>
        let fs := splitOnChar sep line
        if fields.length < fs.length then (acc.1, acc.2 ++ [LogLevel.warning])
        else (acc.1 ++ [(fs.headD [], padTo cols.length (fs.tail.map toCell))], acc.2))
      (([] : List (List Char × List (Option (List Char)))), ([] : List LogLevel))
    (some ⟨fields.headD [], cols, acc.1⟩, acc.2)

/-- Model of `df.dropna(axis=1, how="all")`: keep only columns holding at least one
non-null cell. -/
def dropEmptyCols (t : RawTable) : RawTable :=
  let keep := fun j => t.rows.any (fun r => (r.2.getD j none).isSome)
  let idxs := (List.range t.columns.length).filter keep
  ⟨t.indexName, idxs.map (fun j => t.columns.getD j []),
    t.rows.map (fun r => (r.1, idxs.map (fun j => r.2.getD j none)))⟩

/-- Model of `df.filter(regex=self.column_regex)`: keep columns whose name the
configured column predicate accepts. -/
def filterCols (p : List Char → Bool) (t : RawTable) : RawTable :=
  let idxs := (List.range t.columns.length).filter (fun j => p (t.columns.getD j []))
  ⟨t.indexName, idxs.map (fun j => t.columns.getD j []),
    t.rows.map (fun r => (r.1, idxs.map (fun j => r.2.getD j none)))⟩

/-! ### Timezone resolver

Model of the date-parsing part of `_parse_frame` (the `re.search` for
`UTC(\+\d+)` on the index name, `pd.to_datetime(..., errors="coerce")`,
`tz_localize` at a fixed offset, `tz_convert` to the default timezone).
Naive timestamps are integers (minutes); a fixed-offset timezone is an
integer hour offset. -/

/-- ASCII decimal digit test (model of `\d` on the source's header names). -/
def isDigitChar (c : Char) : Bool := decide (48 ≤ c.toNat ∧ c.toNat ≤ 57)

/-- Decimal value of a digit string (callers check digit-ness first). -/
def digitsValOf (ds : List Char) : Nat :=
  ds.foldl (fun a c => 10 * a + (c.toNat - 48)) 0

/-- One attempt of `re.search(r"UTC(\+\d+)", ...)` anchored at the head of
`s`: `UTC+` followed by a maximal nonempty digit run. -/
def tryUtcAt (s : List Char) : Option Nat :=
  if ("UTC+".toList).isPrefixOf s then
    if (s.drop 4).takeWhile isDigitChar = [] then none
    else some (digitsValOf ((s.drop 4).takeWhile isDigitChar))
  else none

/-- Scan for the leftmost `UTC+<digits>` occurrence. -/
def utcScan : List Char → Option Nat
  | [] => none
  | c :: rest =>
    match tryUtcAt (c :: rest) with
    | some h => some h
    | none => utcScan rest

/-- Model of `re.search(r"UTC(\+\d+)", index_name)` followed by `int(m.group(1))`:
the detected non-negative UTC offset, if any. -/
def findUtcOffset (name : List Char) : Option Nat := utcScan name

/-- The character `str(m)` writes for a digit value `m < 10`. -/
def digitCharOf (m : Nat) : Char := Char.ofNat (48 + m)

/-- Decimal digits of a natural number (fuelled; fuel `n + 1` suffices). -/
def toDigitsAux : Nat → Nat → List Char
  | 0, _ => []
  | fuel + 1, n =>
    if n < 10 then [digitCharOf n]
    else toDigitsAux fuel (n / 10) ++ [digitCharOf (n % 10)]

/-- Decimal digits of a natural number, as Python `str` writes them. -/
def toDigits (n : Nat) : List Char := toDigitsAux (n + 1) n

/-- Python `str(i)` for an integer: optional minus sign then digits. -/
def intLiteral (i : Int) : List Char :=
  if i < 0 then '-' :: toDigits i.natAbs else toDigits i.toNat

/-- The timezone name the source builds: `f"Etc/GMT{-int(m.group(1))}"`. -/
def etcGmtZoneName (h : Nat) : List Char :=
  "Etc/GMT".toList ++ intLiteral (-(h : Int))

/-- Modelled from the spec (glossary "Fixed-offset timezone" and §4.4):
the IANA `Etc/GMT...` zones used by pandas are external to `src`; their
documented convention is sign-inverted, `Etc/GMT-n` meaning UTC+n and
`Etc/GMT+n` meaning UTC-n (`Etc/GMT` alone and `Etc/GMT0` are UTC). -/
def etcGmtUtcOffset (name : List Char) : Option Int :=
  if ("Etc/GMT".toList).isPrefixOf name then
    match name.drop 7 with
    | [] => some 0
    | c :: ds =>
      if c = '-' then
        if ds ≠ [] ∧ ds.all isDigitChar then some (Int.ofNat (digitsValOf ds)) else none
      else if c = '+' then
        if ds ≠ [] ∧ ds.all isDigitChar then some (-(Int.ofNat (digitsValOf ds))) else none
      else if (c :: ds).all isDigitChar then some (-(Int.ofNat (digitsValOf (c :: ds))))
      else none
  else none

/-- Model of `pd.to_datetime(..., errors="coerce")` on one index string: a
naive timestamp value (minutes) for a well-formed string, the `NaT` null
for anything else.  The claims concern only the timezone arithmetic applied
afterwards, so a well-formed string is modelled as a digit run. -/
def parseNaive (s : List Char) : Option Int :=
  if s ≠ [] ∧ s.all isDigitChar then some (Int.ofNat (digitsValOf s)) else none

/-- Model of `tz_localize` at a fixed offset of `off` hours: a naive local time `t`
denotes the UTC instant `t - 60 * off`; the offset becomes the display
timezone. -/
def tzLocalize (off : Int) (naive : List (Option Int)) : List (Option Int) × Int :=
  (naive.map (Option.map (fun t => t - 60 * off)), off)

/-- Model of `tz_convert`: UTC instants are unchanged, only the display timezone
moves. -/
def tzConvert (newOff : Int) (aware : List (Option Int) × Int) :
    List (Option Int) × Int := (aware.1, newOff)

/-- The timezone-resolution step of `_parse_frame`: search the index name
for `UTC+<digits>`; if found, localize at the `Etc/GMT{-h}` fixed zone and
convert to the default timezone; otherwise warn and localize directly at
the default timezone. -/
def applyTimezone (defaultOff : Int) (indexName : List Char)
    (labels : List (List Char)) : (List (Option Int) × Int) × List LogLevel :=
  match findUtcOffset indexName with
  | some h =>
    (tzConvert defaultOff
      (tzLocalize ((etcGmtUtcOffset (etcGmtZoneName h)).getD 0)
        (labels.map parseNaive)), [])
  | none =>
    (tzConvert defaultOff (tzLocalize defaultOff (labels.map parseNaive)),
      [LogLevel.warning])

/-! ### Explicit dtype cast -/

/-- Integer value of a cell string (optional minus sign then digits), the
values `astype` would have to fit into the target type. -/
def cellInt (s : List Char) : Option Int :=
  match s with
  | '-' :: ds =>
    if ds ≠ [] ∧ ds.all isDigitChar then some (-(Int.ofNat (digitsValOf ds))) else none
  | ds =>
    if ds ≠ [] ∧ ds.all isDigitChar then some (Int.ofNat (digitsValOf ds)) else none

/-- Model of `df.astype(self.csv_kwargs["dtype"])` succeeding: every
non-null cell must hold a value inside the target type's bounds (an
out-of-range or unconvertible value raises, e.g. `OutOfBoundsDatetime`,
which the source catches). -/
def castCellsOk (lo hi : Int) (fr : Frame) : Bool :=
  fr.rows.all (fun r => r.2.all (fun cell =>
    match cell with
    | none => true
    | some s =>
      match cellInt s with
      | some v => decide (lo ≤ v ∧ v ≤ hi)
      | none => false))

/-! ### Frame builder (`_parse_frame`) -/

/-- The run configuration the claims exercise: column separator, column
filter (the compiled `column_regex`, default `"."` which `re.search`
matches against any nonempty name), `parse_dates`, the optional explicit
dtype bounds, and the default timezone as a fixed hour offset (default
`"UTC"` = 0). -/
structure Config where
  sep : Char
  columnFilter : List Char → Bool
  parseDates : Bool
  dtypeBounds : Option (Int × Int)
  defaultTzOffset : Int

/-- Constructor defaults: `sep=","`, `column_regex="."`, no date parsing,
no explicit dtype, `default_tz="UTC"`. -/
def defaultCfg : Config :=
  ⟨',', fun n => decide (n ≠ []), false, none, 0⟩

/-- The `read_csv` call followed by `dropna(axis=1, how="all")` and
`filter(regex=...)` — the non-date part of `_parse_frame`. -/
def readFiltered (cfg : Config) (text : List Char) :
    Option RawTable × List LogLevel :=
  match readCsv cfg.sep text with
  | (none, logs) => (none, logs)
  | (some t, logs) => (some (filterCols cfg.columnFilter (dropEmptyCols t)), logs)

/-- The time-indexed frame built in the `parse_dates` branch: index labels
parsed and localized by `applyTimezone`, cells untouched. -/
def datedOf (cfg : Config) (t : RawTable) : Frame :=
  let r := applyTimezone cfg.defaultTzOffset t.indexName (t.rows.map Prod.fst)
  ⟨t.indexName, some r.1.2, t.columns,
    List.zipWith (fun inst row => (Label.time inst, row.2)) r.1.1 t.rows⟩

/-- The warnings `applyTimezone` logs for this table. -/
def tzLogsOf (cfg : Config) (t : RawTable) : List LogLevel :=
  (applyTimezone cfg.defaultTzOffset t.indexName (t.rows.map Prod.fst)).2

/-- Model of `RobustCSVParser._parse_frame`: read one block's text, drop empty
columns, filter columns; when date parsing is on, resolve the timezone and
apply the optional explicit dtype cast, failing the whole block (absent
frame, error logged) when the cast fails.  Returning `none` models the
catch-log-return-`None` paths: no exception crosses the block boundary. -/
def parseFrame (cfg : Config) (text : List Char) :
    Option Frame × List LogLevel :=
  match readFiltered cfg text with
  | (none, logs) => (none, logs)
  | (some t, logs) =>
    if cfg.parseDates then
      let fr := datedOf cfg t
      match cfg.dtypeBounds with
      | none => (some fr, logs ++ tzLogsOf cfg t)
      | some b =>
        if castCellsOk b.1 b.2 fr then (some fr, logs ++ tzLogsOf cfg t)
        else (none, logs ++ tzLogsOf cfg t ++ [LogLevel.error])
    else (some (rawToFrame t), logs)

/-! ### Frame merger (`pd.concat(frames, join="outer")`) -/

/-- Union of the column lists in first-appearance order. -/
def unionCols (cols : List (List (List Char))) : List (List Char) :=
  cols.foldl (fun acc cs => acc ++ cs.filter (fun c => decide (c ∉ acc))) []

/-- The cell a row contributes under a column name (null when the row's
frame lacks that column). -/
def cellFor (colsOf : List (List Char)) (cells : List (Option (List Char)))
    (c : List Char) : Option (List Char) :=
  match colsOf.findIdx? (fun c' => c' = c) with
  | some j => cells.getD j none
  | none => none

/-- Outer-join concatenation of present frames: rows in block order, columns
unioned, missing cells null.  The index name survives when all inputs
agree. -/
def concatFrames (fs : List Frame) : Frame :=
  match fs with
  | [] => ⟨[], none, [], []⟩
  | f0 :: _ =>
    let cols := unionCols (fs.map Frame.columns)
    ⟨if fs.all (fun f => f.indexName = f0.indexName) then f0.indexName else [],
      f0.tzOffset, cols,
      (fs.map (fun f => f.rows.map
        (fun r => (r.1, cols.map (cellFor f.columns r.2))))).flatten⟩

/-- Model of `pd.concat` over a list that may contain `None` entries: absent frames
are dropped; when every entry is absent the call raises `ValueError`
(modelled as `none`), which the source catches. -/
def mergeFrames (fs : List (Option Frame)) : Option Frame :=
  match fs.filterMap id with
  | [] => none
  | g :: gs => some (concatFrames (g :: gs))

/-! ### `parse` and `parse_multifile` -/

/-- Everything `parse` produces: the per-file result (or absent), the
parser object's `header_string` field after the call (the frame effect of
marker auto-detection), and the log. -/
structure ParseOutcome where
  result : Option Frame
  state : Option (List Char)
  logs : List LogLevel
deriving DecidableEq, Repr

/-- The marker `parse` compiles into its header regex: the stored
`header_string` when set, otherwise the first field of the file's raw
first line. -/
def effectiveMarker (sep : Char) (st : Option (List Char)) (doc : List Char) :
    List Char :=
  match st with
  | some m => m
  | none => firstField sep doc

/-- The result component of `parse` on NUL-stripped text: no header match
means an absent result; otherwise every block is parsed and the present
frames outer-joined (`None` when `pd.concat` raises because every block
was absent). -/
def parseResultOf (cfg : Config) (marker data : List Char) : Option Frame :=
  match findAllMatches marker data with
  | [] => none
  | _ :: _ =>
    mergeFrames (((blockTexts marker data).map (parseFrame cfg)).map Prod.fst)

/-- The log of `parse` on NUL-stripped text: the initial `logger.info`, then
either the single `No header found` error, or the per-block logs followed
by the `All empty data` error when every block came back absent. -/
def parseLogsOf (cfg : Config) (marker data : List Char) : List LogLevel :=
  match findAllMatches marker data with
  | [] => [LogLevel.info, LogLevel.error]
  | _ :: _ =>
    let pieces := (blockTexts marker data).map (parseFrame cfg)
    let logs := LogLevel.info :: (pieces.map Prod.snd).flatten
    match mergeFrames (pieces.map Prod.fst) with
    | none => logs ++ [LogLevel.error]
    | some _ => logs

/-- Model of `RobustCSVParser.parse` on one document (literal-marker configuration,
no `process_func`): auto-detect and store the marker if unset (before NUL
stripping), strip NULs, then locate headers, segment, parse blocks and
merge.  Every failure path is a returned `none`, never an exception. -/
def parse (cfg : Config) (st : Option (List Char)) (doc : List Char) :
    ParseOutcome :=
  let marker := effectiveMarker cfg.sep st doc
  ⟨parseResultOf cfg marker (stripNul doc), some marker,
    parseLogsOf cfg marker (stripNul doc)⟩

/-- Everything `parse_multifile` produces: the per-file results in
submission order, the batch merge, and the parser state after the call. -/
structure MultiOutcome where
  frames : List (Option Frame)
  merged : Option Frame
  state : Option (List Char)
deriving DecidableEq, Repr

/-- The sequential `map(self.parse, filepaths)` branch: one parser instance
threads its mutable `header_string` through the files in order. -/
def seqFold (cfg : Config) (st : Option (List Char)) (docs : List (List Char)) :
    List (Option Frame) × Option (List Char) :=
  match docs with
  | [] => ([], st)
  | d :: ds =>
    let o := parse cfg st d
    let rest := seqFold cfg o.state ds
    (o.result :: rest.1, rest.2)

/-- Model of `RobustCSVParser.parse_multifile`: with `n_jobs > 1`, `joblib` ships
each worker a serialized copy of the parser, so every file is parsed
against the caller's original state and the caller's instance is not
mutated; otherwise the files are parsed sequentially on the one instance.
Results are merged in submission order either way. -/
def parseMultifile (cfg : Config) (st : Option (List Char))
    (docs : List (List Char)) (nJobs : Nat) : MultiOutcome :=
  if 1 < nJobs then
    let frames := docs.map (fun d => (parse cfg st d).result)
    ⟨frames, mergeFrames frames, st⟩
  else
    let r := seqFold cfg st docs
    ⟨r.1, mergeFrames r.1, r.2⟩

/-- What actually sits at a header-match offset: an optional quotation mark
followed immediately by the marker text. -/
def markerMatchesAt (marker data : List Char) (i : Nat) : Prop :=
  List.IsPrefix marker (data.drop i)
    ∨ ∃ c rest, data.drop i = c :: rest ∧ isQuoteChar c = true
        ∧ List.IsPrefix marker rest

/-! ### Lemmas about the header locator -/

theorem findFromAux_sound (marker data : List Char) :
    ∀ fuel pos i e, findFromAux marker data fuel pos = some (i, e) →
      pos ≤ i ∧ matchEndAt marker data i = some e := by
  intro fuel
  induction fuel with
  | zero => intro pos i e hf; simp [findFromAux] at hf
  | succ f ih =>
    intro pos i e hf
    unfold findFromAux at hf
    split at hf
    · exact absurd hf (by simp)
    · cases hm : matchEndAt marker data pos with
      | some e' =>
        rw [hm] at hf
        obtain ⟨rfl, rfl⟩ : pos = i ∧ e' = e := by
          constructor <;> (cases hf; rfl)
        exact ⟨Nat.le_refl _, hm⟩
      | none =>
        rw [hm] at hf
        obtain ⟨h1, h2⟩ := ih (pos + 1) i e hf
        exact ⟨by omega, h2⟩

theorem findAllAux_mem_spec (marker data : List Char) :
    ∀ fuel pos x, x ∈ findAllAux marker data fuel pos →
      pos ≤ x ∧ ∃ e, matchEndAt marker data x = some e := by
  intro fuel
  induction fuel with
  | zero => intro pos x hx; simp [findAllAux] at hx
  | succ f ih =>
    intro pos x hx
    unfold findAllAux at hx
    cases hfind : findFromAux marker data (data.length + 1) pos with
    | none => rw [hfind] at hx; simp at hx
    | some ie =>
      obtain ⟨i, e⟩ := ie
      rw [hfind] at hx
      obtain ⟨hpos, hmatch⟩ := findFromAux_sound marker data _ _ _ _ hfind
      rcases List.mem_cons.mp hx with rfl | hx'
      · exact ⟨hpos, e, hmatch⟩
      · obtain ⟨h1, h2⟩ := ih _ _ hx'
        refine ⟨?_, h2⟩
        by_cases hlt : i < e <;> simp [hlt] at h1 <;> omega

theorem findAllAux_chain (marker data : List Char) :
    ∀ fuel pos, List.Chain' (· < ·) (findAllAux marker data fuel pos) := by
  intro fuel
  induction fuel with
  | zero => intro pos; simp [findAllAux]
  | succ f ih =>
    intro pos
    unfold findAllAux
    cases hfind : findFromAux marker data (data.length + 1) pos with
    | none => simp
    | some ie =>
      obtain ⟨i, e⟩ := ie
      rw [List.chain'_cons']
      refine ⟨?_, ih _⟩
      intro y hy
      have hmem := List.mem_of_mem_head? hy
      have h1 := (findAllAux_mem_spec marker data _ _ _ hmem).1
      by_cases hlt : i < e <;> simp [hlt] at h1 <;> omega

theorem findAllMatches_chain (marker data : List Char) :
    List.Chain' (· < ·) (findAllMatches marker data) :=
  findAllAux_chain marker data _ 0

/-! ### Lemmas about the segmenter -/

theorem slice_append_drop (data : List Char) (a b : Nat) (hab : a ≤ b) :
    listSlice data a b ++ data.drop b = data.drop a := by
  unfold listSlice
  conv_rhs => rw [← List.take_append_drop b data]
  rw [List.drop_append_eq_append_drop]
  congr 1
  rcases le_or_lt a (data.take b).length with h1 | h1
  · rw [Nat.sub_eq_zero_of_le h1, List.drop_zero]
  · rw [List.length_take] at h1
    have hd : data.drop b = [] := List.drop_eq_nil_of_le (by omega)
    rw [hd]
    simp

theorem segments_eq_zip (data : List Char) :
    ∀ (rest : List Nat) (o : Nat),
      segments data (o :: rest)
        = ((o :: rest).zip (rest ++ [data.length])).map
            (fun p => listSlice data p.1 p.2) := by
  intro rest
  induction rest with
  | nil =>
    intro o
    simp [segments, listSlice, List.take_length]
  | cons o2 r ih =>
    intro o
    simp only [segments, List.zip_cons_cons, List.map_cons, List.cons_append]
    rw [ih o2]

theorem segments_length (data : List Char) :
    ∀ (rest : List Nat) (o : Nat),
      (segments data (o :: rest)).length = rest.length + 1 := by
  intro rest
  induction rest with
  | nil => intro o; rfl
  | cons o2 r ih => intro o; simp only [segments, List.length_cons, ih]

theorem segments_flatten (data : List Char) :
    ∀ (rest : List Nat) (o : Nat), List.Chain' (· ≤ ·) (o :: rest) →
      (segments data (o :: rest)).flatten = data.drop o := by
  intro rest
  induction rest with
  | nil => intro o _; simp [segments]
  | cons o2 r ih =>
    intro o hchain
    rw [List.chain'_cons] at hchain
    simp only [segments, List.flatten_cons]
    rw [ih o2 hchain.2]
    exact slice_append_drop data o o2 hchain.1

/-! ### Lemmas about NUL stripping -/

theorem stripNul_idem (s : List Char) : stripNul (stripNul s) = stripNul s := by
  simp [stripNul, List.filter_filter]

/-! ### Lemmas about decimal digits and the Etc/GMT round trip -/

theorem digitCharOf_spec (m : Nat) (hm : m < 10) :
    isDigitChar (digitCharOf m) = true ∧ (digitCharOf m).toNat - 48 = m := by
  interval_cases m <;> exact ⟨by decide, by decide⟩

theorem digitsValOf_append_one (l : List Char) (c : Char) :
    digitsValOf (l ++ [c]) = 10 * digitsValOf l + (c.toNat - 48) := by
  simp [digitsValOf, List.foldl_append]

theorem toDigitsAux_spec :
    ∀ fuel n, n < fuel →
      toDigitsAux fuel n ≠ []
        ∧ (toDigitsAux fuel n).all isDigitChar = true
        ∧ digitsValOf (toDigitsAux fuel n) = n := by
  intro fuel
  induction fuel with
  | zero => intro n hn; omega
  | succ f ih =>
    intro n hn
    by_cases h10 : n < 10
    · obtain ⟨hd, hv⟩ := digitCharOf_spec n h10
      refine ⟨by simp [toDigitsAux, h10], ?_, ?_⟩
      · simp [toDigitsAux, h10, hd]
      · simp [toDigitsAux, h10, digitsValOf, hv]
    · have hdiv : n / 10 < f := by
        have h1 : n / 10 < n := Nat.div_lt_self (by omega) (by omega)
        omega
      obtain ⟨ihne, ihall, ihval⟩ := ih (n / 10) hdiv
      obtain ⟨hd, hv⟩ := digitCharOf_spec (n % 10) (Nat.mod_lt _ (by omega))
      have hunf : toDigitsAux (f + 1) n
          = toDigitsAux f (n / 10) ++ [digitCharOf (n % 10)] := by
        simp [toDigitsAux, h10]
      refine ⟨by simp [hunf], ?_, ?_⟩
      · simp [hunf, List.all_append, ihall, hd]
      · rw [hunf, digitsValOf_append_one, ihval, hv]
        omega

theorem toDigits_spec (n : Nat) :
    toDigits n ≠ []
      ∧ (toDigits n).all isDigitChar = true
      ∧ digitsValOf (toDigits n) = n :=
  toDigitsAux_spec (n + 1) n (by omega)

theorem etcGmt_roundTrip (h : Nat) :
    etcGmtUtcOffset (etcGmtZoneName h) = some (h : Int) := by
  by_cases h0 : h = 0
  · subst h0; decide
  · obtain ⟨hne, hall, hval⟩ := toDigits_spec h
    have hname : etcGmtZoneName h = "Etc/GMT".toList ++ ('-' :: toDigits h) := by
      unfold etcGmtZoneName intLiteral
      have hneg : -(h : Int) < 0 := by omega
      rw [if_pos hneg]
      simp [Int.natAbs_neg]
    rw [hname]
    unfold etcGmtUtcOffset
    rw [if_pos (by exact List.isPrefixOf_iff_prefix.mpr ⟨'-' :: toDigits h, rfl⟩)]
    have hdrop : ("Etc/GMT".toList ++ ('-' :: toDigits h)).drop 7
        = '-' :: toDigits h := by
      have h7 : ("Etc/GMT".toList).length = 7 := by decide
      rw [show (7 : Nat) = ("Etc/GMT".toList).length from h7.symm,
        List.drop_left]
    rw [hdrop]
    simp [hne, hall, hval]

/-! ### Lemmas about the `UTC+<digits>` scan -/

theorem utcScan_sound :
    ∀ (s : List Char) (h : Nat), utcScan s = some h →
      ∃ tail, tail <:+ s ∧ tryUtcAt tail = some h := by
  intro s
  induction s with
  | nil => intro h hh; simp [utcScan] at hh
  | cons c rest ih =>
    intro h hh
    unfold utcScan at hh
    cases htry : tryUtcAt (c :: rest) with
    | some h' =>
      rw [htry] at hh
      cases hh
      exact ⟨c :: rest, List.suffix_rfl, htry⟩
    | none =>
      rw [htry] at hh
      obtain ⟨tail, hsuf, ht⟩ := ih h hh
      exact ⟨tail, hsuf.trans (List.suffix_cons c rest), ht⟩

theorem tryUtcAt_sound (s : List Char) (h : Nat) (he : tryUtcAt s = some h) :
    ∃ ds, ds ≠ [] ∧ ds.all isDigitChar = true ∧ digitsValOf ds = h
      ∧ ("UTC+".toList ++ ds) <+: s := by
  unfold tryUtcAt at he
  split at he
  · next hpre =>
    split at he
    · exact absurd he (by simp)
    · next hds =>
      cases he
      obtain ⟨t, ht⟩ := List.isPrefixOf_iff_prefix.mp hpre
      refine ⟨(s.drop 4).takeWhile isDigitChar, hds, ?_, rfl, ?_⟩
      · exact List.all_eq_true.mpr fun a ha => List.mem_takeWhile_imp ha
      · have hdrop : s.drop 4 = t := by
          rw [← ht]
          have h4 : ("UTC+".toList).length = 4 := by decide
          rw [show (4 : Nat) = ("UTC+".toList).length from h4.symm, List.drop_left]
        obtain ⟨t', ht'⟩ := List.takeWhile_prefix (l := s.drop 4) (p := isDigitChar)
        rw [hdrop] at ht'
        exact ⟨t', by rw [hdrop, List.append_assoc, ht', ht]⟩
  · exact absurd he (by simp)

/-! ### Lemmas about `parse` and `parse_multifile` -/

theorem parse_state_some (cfg : Config) (m doc : List Char) :
    (parse cfg (some m) doc).state = some m := rfl

theorem parse_state_auto (cfg : Config) (doc : List Char) :
    (parse cfg none doc).state = some (firstField cfg.sep doc) := rfl

theorem seqFold_some (cfg : Config) (m : List Char) :
    ∀ ds : List (List Char),
      seqFold cfg (some m) ds
        = (ds.map (fun x => (parse cfg (some m) x).result), some m) := by
  intro ds
  induction ds with
  | nil => rfl
  | cons d t ih => simp only [seqFold, parse_state_some, ih, List.map_cons]

/-! ### Lemmas about header-only blocks -/

theorem splitOnChar_no_nl (l : List Char)
    (h : l.all (fun c => c != '\n') = true) :
    splitOnChar '\n' (l ++ ['\n']) = [l, []] := by
  induction l with
  | nil => rfl
  | cons c t ih =>
    rw [List.all_cons, Bool.and_eq_true] at h
    obtain ⟨hc, ht⟩ := h
    have hcne : ¬c = '\n' := by simpa using hc
    simp only [List.cons_append, splitOnChar, if_neg hcne]
    rw [show splitOnChar '\n' (t.append ['\n']) = [t, []] from ih ht]

theorem readFiltered_header_only (cfg : Config) (l : List Char)
    (hne : l ≠ []) (hnl : l.all (fun c => c != '\n') = true) :
    readFiltered cfg (l ++ ['\n'])
      = (some ⟨(splitOnChar cfg.sep l).headD [], [], []⟩, []) := by
  have hbl : (l != []) = true := by simpa using hne
  unfold readFiltered readCsv
  rw [splitOnChar_no_nl l hnl]
  have hfil : List.filter (fun x => x != []) [l, []] = [l] := by
    simp [List.filter_cons, hbl]
  rw [hfil]
  simp [dropEmptyCols, filterCols]

theorem parseFrame_empty_table (cfg : Config) (text : List Char)
    (nm : List Char)
    (hrf : readFiltered cfg text = (some ⟨nm, [], []⟩, [])) :
    (parseFrame cfg text).1
      = some ⟨nm, if cfg.parseDates then some cfg.defaultTzOffset else none,
          [], []⟩ := by
  unfold parseFrame
  rw [hrf]
  by_cases hpd : cfg.parseDates
  · have hdated : datedOf cfg ⟨nm, [], []⟩
        = ⟨nm, some cfg.defaultTzOffset, [], []⟩ := by
      unfold datedOf applyTimezone
      cases findUtcOffset nm <;> simp [tzConvert, tzLocalize]
    cases hb : cfg.dtypeBounds with
    | none => simp [hpd, hdated]
    | some b => simp [hpd, hb, hdated, castCellsOk]
  · simp [hpd, rawToFrame]

theorem concatFrames_empty_head (fr : Frame) (hc : fr.columns = [])
    (hr : fr.rows = []) (gs : List Frame) :
    (concatFrames (fr :: gs)).rows = (concatFrames gs).rows := by
  cases gs with
  | nil => simp [concatFrames, hr]
  | cons g gs' =>
    simp only [concatFrames, List.map_cons, List.flatten_cons, hr, hc,
      List.map_nil, List.nil_append, unionCols, List.foldl_cons,
      List.filter_nil, List.append_nil]

theorem mergeFrames_some_head (fr : Frame) (rest : List (Option Frame)) :
    mergeFrames (some fr :: rest) ≠ none := by
  simp [mergeFrames, List.filterMap_cons]

/-! ### The claims -/

/-- C1: for a document whose (NUL-stripped) text has K >= 1 header matches
at offsets `o_0 < o_1 < ...`, `parse` produces exactly K blocks; block i is
the span `[o_i, o_(i+1))`, the final block is `[o_(K-1), len)`, and the
blocks partition `[first_match_start, len)` in offset order, so no text
before the first match is in any block. -/
theorem claim1_segmentation (marker data : List Char) (os : List Nat)
    (o0 : Nat) (rest : List Nat)
    (hos : findAllMatches marker data = os) (hcons : os = o0 :: rest) :
    blockTexts marker data
        = (os.zip (rest ++ [data.length])).map (fun p => listSlice data p.1 p.2)
      ∧ (blockTexts marker data).length = os.length
      ∧ (blockTexts marker data).flatten = data.drop o0 := by
  have hchain : List.Chain' (· < ·) os := by
    rw [← hos]; exact findAllMatches_chain marker data
  subst hcons
  have hb : blockTexts marker data = segments data (o0 :: rest) := by
    unfold blockTexts; rw [hos]
  refine ⟨?_, ?_, ?_⟩
  · rw [hb, segments_eq_zip]
  · rw [hb, segments_length]; rfl
  · rw [hb, segments_flatten data rest o0 (hchain.imp (fun a b h => le_of_lt h))]

/-- C1 witness: the document `"Time,A\nx\nTime,B\n"` has matches at 0 and
9; its blocks concatenate to the whole document from offset 0. -/
theorem claim1_segmentation_witness :
    (blockTexts ("Time".toList) ("Time,A\nx\nTime,B\n".toList)).flatten
      = ("Time,A\nx\nTime,B\n".toList).drop 0 :=
  (claim1_segmentation ("Time".toList) ("Time,A\nx\nTime,B\n".toList)
    [0, 9] 0 [9] (by decide) rfl).2.2

/-- C4: a document whose text yields zero header-pattern matches makes
`parse` return an absent result with exactly one error diagnostic; the
failure is a returned value, not an exception. -/
theorem claim4_no_header (cfg : Config) (st : Option (List Char))
    (doc : List Char)
    (h : findAllMatches (effectiveMarker cfg.sep st doc) (stripNul doc) = []) :
    (parse cfg st doc).result = none
      ∧ ((parse cfg st doc).logs.count LogLevel.error) = 1 := by
  have hres : (parse cfg st doc).result = none := by
    show parseResultOf cfg (effectiveMarker cfg.sep st doc) (stripNul doc) = none
    unfold parseResultOf
    rw [h]
  have hlogs : (parse cfg st doc).logs = [LogLevel.info, LogLevel.error] := by
    show parseLogsOf cfg (effectiveMarker cfg.sep st doc) (stripNul doc) = _
    unfold parseLogsOf
    rw [h]
  exact ⟨hres, by rw [hlogs]; rfl⟩

/-- C4 witness: parsing `"abc\n"` with marker `"Time"` yields no result and
one error. -/
theorem claim4_no_header_witness :
    (parse defaultCfg (some ("Time".toList)) ("abc\n".toList)).result = none
      ∧ ((parse defaultCfg (some ("Time".toList))
          ("abc\n".toList)).logs.count LogLevel.error) = 1 :=
  claim4_no_header defaultCfg (some ("Time".toList)) ("abc\n".toList) (by decide)

/-- C6 counterexample: with marker auto-detection, the marker is taken from
the first line BEFORE NUL stripping. For the document
`"Ti\0me,A\nTime,A\n1,2\n"` the detected marker `"Ti\0me"` matches nothing
in the stripped text, so parsing fails, while its NUL-stripped twin parses
successfully — refuting `parse d = parse (strip d)` as stated. -/
theorem claim6_counterexample :
    (parse defaultCfg none ("Ti\x00me,A\nTime,A\n1,2\n".toList)).result = none
      ∧ (parse defaultCfg none
          (stripNul ("Ti\x00me,A\nTime,A\n1,2\n".toList))).result ≠ none := by
  decide

/-- C6 amended: NUL characters are stripped before header detection and
parsing, so whenever the header marker is explicitly configured (not
auto-detected), a document and its NUL-stripped twin parse identically —
same result, same stored state, same log. -/
theorem claim6_amended (cfg : Config) (m doc : List Char) :
    parse cfg (some m) doc = parse cfg (some m) (stripNul doc) := by
  show ParseOutcome.mk _ _ _ = ParseOutcome.mk _ _ _
  rw [show effectiveMarker cfg.sep (some m) doc = m from rfl,
    show effectiveMarker cfg.sep (some m) (stripNul doc) = m from rfl,
    stripNul_idem]

/-- C9 counterexample: with `n_jobs > 1`, `joblib` hands every worker a
copy of the parser, so the second file is parsed with the caller's original
(unset) marker and re-detects its own — not with the marker stored by the
first file — and the caller's `header_string` is still unset afterwards. -/
theorem claim9_counterexample :
    ((parseMultifile defaultCfg none
          [("Time,A\nt1,1\n".toList), ("Foo,B\nx,2\n".toList)] 2).frames.getD 1 none
        ≠ (parse defaultCfg
            (parse defaultCfg none ("Time,A\nt1,1\n".toList)).state
            ("Foo,B\nx,2\n".toList)).result)
      ∧ (parseMultifile defaultCfg none
          [("Time,A\nt1,1\n".toList), ("Foo,B\nx,2\n".toList)] 2).state = none := by
  decide

/-- C9 amended: when neither marker is configured, a `parse` call stores
the auto-detected marker (first separator-delimited field of the raw first
line) in `header_string`; direct subsequent calls and the sequential
(`n_jobs = 1`) `parse_multifile` path reuse it for every later file.  With
`n_jobs > 1` each worker gets a copy, so files are parsed against the
caller's original state and the stored marker is neither reused nor kept. -/
theorem claim9_amended (cfg : Config) (d : List Char) (ds : List (List Char)) :
    (parse cfg none d).state = some (firstField cfg.sep d)
      ∧ (parseMultifile cfg none (d :: ds) 1).state
          = some (firstField cfg.sep d)
      ∧ (parseMultifile cfg none (d :: ds) 1).frames
          = (parse cfg none d).result
            :: ds.map (fun x =>
                (parse cfg (some (firstField cfg.sep d)) x).result) := by
  refine ⟨rfl, ?_, ?_⟩ <;>
    simp only [parseMultifile, seqFold, parse_state_auto, seqFold_some,
      if_neg (by omega : ¬1 < 1)]

/-- C2: the spec's worked example.  Parsing
`"Time,A,B\nt1,1,2\nt2,3,4\nTime,A,C\nt3,5,6\n"` with header marker
`"Time"` under the constructor defaults yields exactly the two blocks,
block 1 with rows t1,t2 and columns A,B, block 2 with row t3 and columns
A,C, and the merged result indexed t1,t2,t3 over columns A,B,C with cells
(t1,C), (t2,C), (t3,B) null and all other cells the source values. -/
theorem claim2_example :
    blockTexts ("Time".toList)
        ("Time,A,B\nt1,1,2\nt2,3,4\nTime,A,C\nt3,5,6\n".toList)
        = ["Time,A,B\nt1,1,2\nt2,3,4\n".toList, "Time,A,C\nt3,5,6\n".toList]
      ∧ parseFrame defaultCfg ("Time,A,B\nt1,1,2\nt2,3,4\n".toList)
          = (some ⟨"Time".toList, none, ["A".toList, "B".toList],
              [(Label.raw ("t1".toList), [some ("1".toList), some ("2".toList)]),
                (Label.raw ("t2".toList),
                  [some ("3".toList), some ("4".toList)])]⟩, [])
      ∧ parseFrame defaultCfg ("Time,A,C\nt3,5,6\n".toList)
          = (some ⟨"Time".toList, none, ["A".toList, "C".toList],
              [(Label.raw ("t3".toList),
                  [some ("5".toList), some ("6".toList)])]⟩, [])
      ∧ (parse defaultCfg (some ("Time".toList))
            ("Time,A,B\nt1,1,2\nt2,3,4\nTime,A,C\nt3,5,6\n".toList)).result
          = some ⟨"Time".toList, none,
              ["A".toList, "B".toList, "C".toList],
              [(Label.raw ("t1".toList),
                  [some ("1".toList), some ("2".toList), none]),
                (Label.raw ("t2".toList),
                  [some ("3".toList), some ("4".toList), none]),
                (Label.raw ("t3".toList),
                  [some ("5".toList), none, some ("6".toList)])]⟩ := by
  decide

/-- C3: with date parsing on, an index name carrying `UTC+h` makes every
timestamp of the block be localized at the fixed offset h (a constant
shift, hence no daylight-saving adjustment) and then converted to the
configured default timezone, without a warning; an unmarked index name
logs one warning and localizes directly at the default timezone (the
conversion is then the identity). -/
theorem claim3_timezone (d : Int) (name : List Char)
    (labels : List (List Char)) :
    (∀ h : Nat, findUtcOffset name = some h →
        applyTimezone d name labels
          = ((labels.map
                (fun s => (parseNaive s).map (fun t => t - 60 * (h : Int))),
              d), []))
      ∧ (findUtcOffset name = none →
        applyTimezone d name labels
          = ((labels.map (fun s => (parseNaive s).map (fun t => t - 60 * d)),
              d), [LogLevel.warning])) := by
  constructor
  · intro h hh
    simp [applyTimezone, hh, etcGmt_roundTrip, tzConvert, tzLocalize]
  · intro hh
    simp [applyTimezone, hh, tzConvert, tzLocalize]

/-- C3 witness: index name `"Timestamp_UTC+2"` with default timezone UTC
shifts the parsed value 100 by -120 minutes and emits no warning. -/
theorem claim3_timezone_witness :
    applyTimezone 0 ("Timestamp_UTC+2".toList) [("100".toList)]
      = (([("100".toList)].map
            (fun s => (parseNaive s).map
              (fun t => t - 60 * (((2 : Nat)) : Int))), 0), []) :=
  (claim3_timezone 0 ("Timestamp_UTC+2".toList) [("100".toList)]).1 2 (by decide)

/-- C5: with date parsing enabled and an explicit post-parse dtype cast
configured, a block holding any value that overflows the target type logs
an error and returns an absent frame for the whole block (which the merge
then drops); the failure is a returned `none`, not an exception. -/
theorem claim5_cast_overflow (cfg : Config) (text : List Char) (t : RawTable)
    (lo hi : Int)
    (hpd : cfg.parseDates = true)
    (hb : cfg.dtypeBounds = some (lo, hi))
    (ht : (readFiltered cfg text).1 = some t)
    (hcast : castCellsOk lo hi (datedOf cfg t) = false) :
    (parseFrame cfg text).1 = none
      ∧ LogLevel.error ∈ (parseFrame cfg text).2 := by
  rcases hrf : readFiltered cfg text with ⟨r1, r2⟩
  rw [hrf] at ht
  obtain rfl : r1 = some t := ht
  unfold parseFrame
  rw [hrf]
  simp [hpd, hb, hcast, List.mem_append]

/-- C5 witness: casting the cell value 300 into bounds [0, 255] fails, so
the block `"Time_UTC+2,A\n100,300\n"` is returned absent with an error. -/
theorem claim5_cast_overflow_witness :
    (parseFrame ⟨',', fun n => decide (n ≠ []), true, some (0, 255), 0⟩
        ("Time_UTC+2,A\n100,300\n".toList)).1 = none
      ∧ LogLevel.error ∈ (parseFrame ⟨',', fun n => decide (n ≠ []), true,
          some (0, 255), 0⟩ ("Time_UTC+2,A\n100,300\n".toList)).2 :=
  claim5_cast_overflow _ _
    ⟨"Time_UTC+2".toList, ["A".toList], [("100".toList, [some ("300".toList)])]⟩
    0 255 rfl rfl (by decide) (by decide)

/-- C7 counterexample: the compiled pattern has no start-of-line anchor
(only `$` under `re.MULTILINE`), so the marker `"Time"` inside the line
`"xxTime,A"` produces a header match at offset 2, which is not the start
of a line — refuting "a header match begins only at the start of a
line". -/
theorem claim7_counterexample :
    findAllMatches ("Time".toList) ("xxTime,A\nTime,A\n1,2\n".toList) = [2, 9]
      ∧ ("xxTime,A\nTime,A\n1,2\n".toList).getD 1 ' ' ≠ '\n'
      ∧ (2 : Nat) ≠ 0 := by
  decide

/-- C7 amended: the compiled pattern is end-of-line anchored, not
start-of-line anchored: every header match offset carries an optional
leading quote character followed immediately by the marker text (matched
literally, since the literal is pattern-escaped), but such a match may
begin anywhere in a line, not only at its start. -/
theorem claim7_amended (marker data : List Char) (i : Nat)
    (hm : marker ≠ []) (hi : i ∈ findAllMatches marker data) :
    markerMatchesAt marker data i := by
  obtain ⟨-, e, he⟩ := findAllAux_mem_spec marker data _ 0 i hi
  unfold matchEndAt at he
  split at he
  · rw [if_neg hm] at he
    exact absurd he (by simp)
  · rename_i c rest hdrop
    split at he
    · rename_i hq
      right
      rw [Bool.and_eq_true] at hq
      exact ⟨c, rest, hdrop, hq.1, List.isPrefixOf_iff_prefix.mp hq.2⟩
    · split at he
      · rename_i hp
        left
        rw [hdrop]
        exact List.isPrefixOf_iff_prefix.mp hp
      · exact absurd he (by simp)

/-- C7 amended witness: the mid-line match at offset 2 indeed starts with
the marker text. -/
theorem claim7_amended_witness :
    markerMatchesAt ("Time".toList) ("xxTime,A\nTime,A\n1,2\n".toList) 2 :=
  claim7_amended ("Time".toList) ("xxTime,A\nTime,A\n1,2\n".toList) 2
    (by decide) (by decide)

/-- C8: a block that is only a header line parses to a present frame with
zero rows (not an absent result, not an error); prepending that frame to a
merge contributes no rows, and a merge whose inputs include it can never
come back absent, so the file does not fail because of it. -/
theorem claim8_header_only (cfg : Config) (l : List Char)
    (hne : l ≠ []) (hnl : l.all (fun c => c != '\n') = true) :
    (parseFrame cfg (l ++ ['\n'])).1
        = some ⟨(splitOnChar cfg.sep l).headD [],
            if cfg.parseDates then some cfg.defaultTzOffset else none, [], []⟩
      ∧ (∀ gs : List Frame,
          (concatFrames
              ((⟨(splitOnChar cfg.sep l).headD [],
                  if cfg.parseDates then some cfg.defaultTzOffset else none,
                  [], []⟩ : Frame) :: gs)).rows
            = (concatFrames gs).rows)
      ∧ ∀ rest : List (Option Frame),
          mergeFrames
              (some (⟨(splitOnChar cfg.sep l).headD [],
                  if cfg.parseDates then some cfg.defaultTzOffset else none,
                  [], []⟩ : Frame) :: rest) ≠ none := by
  have hrf := readFiltered_header_only cfg l hne hnl
  refine ⟨parseFrame_empty_table cfg (l ++ ['\n']) _ hrf, ?_, ?_⟩
  · intro gs
    exact concatFrames_empty_head _ rfl rfl gs
  · intro rest
    exact mergeFrames_some_head _ rest

/-- C8 witness: the header-only block `"Time,A,B\n"` parses to a present
frame with no rows. -/
theorem claim8_header_only_witness :
    (parseFrame defaultCfg ("Time,A,B".toList ++ ['\n'])).1
      = some ⟨(splitOnChar ',' ("Time,A,B".toList)).headD [], none, [], []⟩ :=
  (claim8_header_only defaultCfg ("Time,A,B".toList) (by decide) (by decide)).1

/-- C10: the offset pattern accepts only `UTC+<digits>` (every successful
detection exhibits a literal `UTC+` followed by a nonempty digit run whose
value is the detected offset, so a negative marking like `"UTC-5"` never
matches and falls through to the default-timezone path with a warning),
and the zone built for a detected offset h is `Etc/GMT-h`, whose
sign-inverted IANA convention yields the UTC offset +h. -/
theorem claim10_offsets :
    (findUtcOffset ("Timestamp_UTC-5".toList) = none
        ∧ (applyTimezone 0 ("Timestamp_UTC-5".toList) [("100".toList)]).2
            = [LogLevel.warning])
      ∧ (∀ (name : List Char) (h : Nat), findUtcOffset name = some h →
          ∃ tail ds, tail <:+ name ∧ ds ≠ [] ∧ ds.all isDigitChar = true
            ∧ digitsValOf ds = h ∧ ("UTC+".toList ++ ds) <+: tail)
      ∧ ∀ h : Nat, etcGmtUtcOffset (etcGmtZoneName h) = some (h : Int) := by
  refine ⟨by decide, ?_, etcGmt_roundTrip⟩
  intro name h hh
  obtain ⟨tail, hsuf, htry⟩ := utcScan_sound name h hh
  obtain ⟨ds, hne, hall, hval, hpre⟩ := tryUtcAt_sound tail h htry
  exact ⟨tail, ds, hsuf, hne, hall, hval, hpre⟩

/-- C10 witness: the detection on `"T_UTC+12"` reports 12 and exhibits the
`UTC+` marking. -/
theorem claim10_offsets_witness :
    ∃ tail ds, tail <:+ ("T_UTC+12".toList) ∧ ds ≠ []
      ∧ ds.all isDigitChar = true ∧ digitsValOf ds = 12
      ∧ ("UTC+".toList ++ ds) <+: tail :=
  claim10_offsets.2.1 ("T_UTC+12".toList) 12 (by decide)

end RobustCsv
